import Mathlib

/-!
Verification of the transcript-extraction engine of the Transcript-Tony
repository (`src/app.py`, `src/tony.py`).

The Python sources are embedded shallowly over `List Char`:

* `pyStrip`, `splitAtFirst`, `splitAllChar`, `pyUnquote` … model the string
  primitives (`str.strip`, `str.split`, `urllib.parse.unquote_plus`) that the
  sources use;
* `urlsplitE` / `urlparseE` model CPython's `urllib.parse.urlsplit`/`urlparse`
  for the inputs reachable here (see the comments on the definitions for the
  deliberate omissions, none of which can change `extract_video_id`'s result);
* namespaces `App` and `Tony` hold the two variants of `extract_video_id`;
* the caption-track selection of `App.get_youtube_transcript` is embedded
  against a model of the `youtube_transcript_api` library's documented
  behaviour (`findTranscript` …);
* components that the specification describes but that are not present in
  `src/` (retry/backoff executor, attempt-log orchestrator, SRT cue parsing)
  are modelled from the spec and marked as such in their doc comments.

Exceptions are modelled with `Except`: a Python `raise` becomes `.error`, and
the `try/except` wrappers of the sources become the `match`es that map
`.error` to `none`.
-/

/-- ASCII approximation of the whitespace set stripped by Python's
`str.strip()` (`' '`, `\t`, `\n`, `\r`, `\x0b`, `\x0c`; the non-ASCII Unicode
spaces that Python also strips do not occur in any input considered here). -/
def isPyWs (c : Char) : Bool :=
  c == ' ' || c == '\t' || c == '\n' || c == '\r' || c == '\x0b' || c == '\x0c'

/-- Python `s.strip()`. -/
def pyStrip (s : List Char) : List Char :=
  ((s.dropWhile isPyWs).reverse.dropWhile isPyWs).reverse

/-- Split at the first occurrence of `c`: returns the part before it and,
when `c` occurs, the part after it (Python `s.split(c, 1)`). -/
def splitAtFirst (c : Char) : List Char → List Char × Option (List Char)
  | [] => ([], none)
  | x :: xs =>
    if x = c then ([], some xs)
    else
      let r := splitAtFirst c xs
      (x :: r.1, r.2)

def splitAllCharAux (c : Char) : List Char → List Char → List (List Char)
  | [], acc => [acc.reverse]
  | x :: xs, acc =>
    if x = c then acc.reverse :: splitAllCharAux c xs []
    else splitAllCharAux c xs (x :: acc)

/-- Python `s.split(c)` (single-character separator, no maxsplit). -/
def splitAllChar (c : Char) (s : List Char) : List (List Char) :=
  splitAllCharAux c s []

def hexVal (c : Char) : Option Nat :=
  if '0' ≤ c ∧ c ≤ '9' then some (c.toNat - '0'.toNat)
  else if 'a' ≤ c ∧ c ≤ 'f' then some (c.toNat - 'a'.toNat + 10)
  else if 'A' ≤ c ∧ c ≤ 'F' then some (c.toNat - 'A'.toNat + 10)
  else none

/-- `urllib.parse.unquote`: decode `%XX` escapes; invalid escapes are kept
literally.  A decoded byte is modelled as the character of its value, which
matches CPython exactly for ASCII escapes (multi-byte UTF-8 percent-sequences,
which CPython decodes as UTF-8, do not occur in the inputs considered here). -/
def pyUnquoteAux : Nat → List Char → List Char
  | 0, s => s
  | _, [] => []
  | fuel + 1, c :: rest =>
    if c = '%' then
      match rest with
      | a :: b :: rest2 =>
        match hexVal a, hexVal b with
        | some ha, some hb => Char.ofNat (16 * ha + hb) :: pyUnquoteAux fuel rest2
        | _, _ => '%' :: pyUnquoteAux fuel rest
      | _ => '%' :: pyUnquoteAux fuel rest
    else c :: pyUnquoteAux fuel rest

def pyUnquote (s : List Char) : List Char :=
  pyUnquoteAux s.length s

/-- `urllib.parse.unquote_plus`: `+` becomes a space, then `%XX` decoding. -/
def pyUnquotePlus (s : List Char) : List Char :=
  pyUnquote (s.map fun c => if c = '+' then ' ' else c)

/-- ASCII lowercasing, as used by `str.lower()` on the strings handled here. -/
def pyLower (s : List Char) : List Char := s.map Char.toLower

deriving instance DecidableEq for Except

/-- Result record of `urllib.parse.urlparse`. -/
structure UrlParts where
  scheme : List Char
  netloc : List Char
  path : List Char
  params : List Char
  query : List Char
  fragment : List Char
deriving DecidableEq, Repr

/-- CPython `scheme_chars = ascii_letters + digits + '+-.'`. -/
def isSchemeChar (c : Char) : Bool :=
  c.isAlpha || c.isDigit || c == '+' || c == '-' || c == '.'

/-- The scheme-detection step of `urlsplit`: if the text before the first `:`
is a nonempty run of scheme characters starting with a letter, it is the
(lowercased) scheme; otherwise the scheme is empty and the URL is unchanged. -/
def schemeSplit (url : List Char) : List Char × List Char :=
  match splitAtFirst ':' url with
  | (before, some after) =>
    if (match before with | b :: _ => b.isAlpha | [] => false)
        && before.all isSchemeChar
    then (pyLower before, after)
    else ([], url)
  | (_, none) => ([], url)

/-- `_splitnetloc`: when the remainder starts with `//`, the netloc is
everything up to the next `/`, `?` or `#`. -/
def netlocSplit (rest : List Char) : List Char × List Char :=
  match rest with
  | '/' :: '/' :: r =>
    let nl := r.takeWhile fun c => !(c == '/' || c == '?' || c == '#')
    (nl, r.drop nl.length)
  | _ => ([], rest)

def fragSplit (s : List Char) : List Char × List Char :=
  match splitAtFirst '#' s with
  | (b, some a) => (b, a)
  | (b, none) => (b, [])

def querySplit (s : List Char) : List Char × List Char :=
  match splitAtFirst '?' s with
  | (b, some a) => (b, a)
  | (b, none) => (b, [])

/-- `urllib.parse.urlsplit` (CPython ≥ 3.10): lstrip WHATWG C0-control/space,
remove tab/CR/LF, then split scheme, netloc, fragment and query.  The
`ValueError` for mismatched IPv6 brackets is modelled as `.error`.  Not
modelled (they cannot change `extract_video_id`'s result, since any netloc
they involve is never one of the recognized YouTube domains, and both a raise
and a pass-through end in `None`): `_check_bracketed_host` for netlocs with a
matching bracket pair, and `_checknetloc`'s NFKC check for non-ASCII netlocs. -/
def urlsplitE (url0 : List Char) : Except (List Char) UrlParts :=
  let url2 := ((url0.dropWhile fun c => decide (c.toNat ≤ 0x20)).filter
    fun c => !(c == '\t' || c == '\r' || c == '\n'))
  let sr := schemeSplit url2
  let nr := netlocSplit sr.2
  if ('[' ∈ nr.1 ∧ ']' ∉ nr.1) ∨ (']' ∈ nr.1 ∧ '[' ∉ nr.1) then
    .error "Invalid IPv6 URL".data
  else
    let fr := fragSplit nr.2
    let qr := querySplit fr.1
    .ok ⟨sr.1, nr.1, qr.1, [], qr.2, fr.2⟩

/-- CPython `uses_params`. -/
def uses_params : List (List Char) :=
  ["".data, "ftp".data, "hdl".data, "prospero".data, "http".data, "imap".data,
   "https".data, "shttp".data, "rtsp".data, "rtspu".data, "sip".data,
   "sips".data, "mms".data, "sftp".data, "tel".data]

/-- CPython `_splitparams`: split `;params` off the last path segment. -/
def splitparams (url : List Char) : List Char × List Char :=
  match splitAtFirst '/' url.reverse with
  | (revPost, some revPre) =>
    match splitAtFirst ';' revPost.reverse with
    | (b, some a) => (revPre.reverse ++ '/' :: b, a)
    | (_, none) => (url, [])
  | (_, none) =>
    match splitAtFirst ';' url with
    | (b, some a) => (b, a)
    | (_, none) => (url, [])

/-- `urllib.parse.urlparse` = `urlsplit` plus the params split. -/
def urlparseE (url : List Char) : Except (List Char) UrlParts :=
  match urlsplitE url with
  | .error e => .error e
  | .ok sp =>
    if sp.scheme ∈ uses_params ∧ ';' ∈ sp.path then
      .ok { sp with path := (splitparams sp.path).1,
                    params := (splitparams sp.path).2 }
    else .ok sp

/-- `urllib.parse.parse_qsl` with the default arguments: split the query on
`&`, skip empty fields, fields without `=`, and fields with an empty value
(`keep_blank_values=False`), and unquote names and values. -/
def parseQsl (qs : List Char) : List (List Char × List Char) :=
  (splitAllChar '&' qs).filterMap fun field =>
    if field = [] then none
    else
      match splitAtFirst '=' field with
      | (_, none) => none
      | (n, some v) =>
        if v = [] then none
        else some (pyUnquotePlus n, pyUnquotePlus v)

/-- `parse_qs(query).get('v')` followed by `[0]`: the first value of the `v`
parameter, or `none` when there is none. -/
def getVParam (query : List Char) : Option (List Char) :=
  ((parseQsl query).filterMap fun p =>
    if p.1 = ['v'] then some p.2 else none).head?

/-- The recognized hosts of both `extract_video_id` variants. -/
def ytDomains : List (List Char) :=
  ["www.youtube.com".data, "youtube.com".data, "m.youtube.com".data,
   "youtu.be".data]

namespace App

/-- `src/app.py` lines 17–21: strip, then truncate at the first `&`. -/
def cleanUrl (videoUrl : List Char) : List Char :=
  let u := pyStrip videoUrl
  if '&' ∈ u then (splitAllChar '&' u).headD [] else u

/-- `src/app.py` lines 24–33: the branch on the parsed URL. -/
def selectFromParts (p : UrlParts) : Option (List Char) :=
  if p.netloc ∉ ytDomains then none
  else if p.netloc = "youtu.be".data then
    some ((splitAllChar '?' (p.path.drop 1)).headD [])
  else if p.query ≠ [] then
    match getVParam p.query with
    | some v => some v
    | none => none
  else none

/-- The body of `src/app.py`'s `extract_video_id` (the `try` block); a raise
out of `urlparse` surfaces as `.error`. -/
def extract_video_idE (videoUrl : List Char) : Except (List Char) (Option (List Char)) :=
  match urlparseE (cleanUrl videoUrl) with
  | .ok p => .ok (selectFromParts p)
  | .error e => .error e

/-- `src/app.py`'s `extract_video_id`, `except Exception` included: every
raise is converted to `None`. -/
def extract_video_id_core (videoUrl : List Char) : Option (List Char) :=
  match extract_video_idE videoUrl with
  | .ok r => r
  | .error _ => none

def extract_video_id (s : String) : Option String :=
  (extract_video_id_core s.data).map fun l => ⟨l⟩

end App

namespace Tony

/-- `src/tony.py` lines 17–26: no strip/`&` truncation, and the `youtu.be`
branch returns `path[1:]` directly. -/
def selectFromParts (p : UrlParts) : Option (List Char) :=
  if p.netloc ∉ ytDomains then none
  else if p.netloc = "youtu.be".data then some (p.path.drop 1)
  else if p.query ≠ [] then
    match getVParam p.query with
    | some v => some v
    | none => none
  else none

/-- The body of `src/tony.py`'s `extract_video_id` (the `try` block). -/
def extract_video_idE (videoUrl : List Char) : Except (List Char) (Option (List Char)) :=
  match urlparseE videoUrl with
  | .ok p => .ok (selectFromParts p)
  | .error e => .error e

/-- `src/tony.py`'s `extract_video_id` with its `except Exception` handler. -/
def extract_video_id_core (videoUrl : List Char) : Option (List Char) :=
  match extract_video_idE videoUrl with
  | .ok r => r
  | .error _ => none

def extract_video_id (s : String) : Option String :=
  (extract_video_id_core s.data).map fun l => ⟨l⟩

end Tony

/-- A caption track of a video, as listed by the captions API: its language
code and whether it is auto-generated (vs manually created). -/
structure Track where
  lang : String
  isGenerated : Bool
deriving DecidableEq, Repr

/-- Model of `youtube_transcript_api`'s `TranscriptList.find_transcript`
(used by `get_transcript`): for each requested language in order, a manually
created track in that language is preferred over a generated one; `none`
models the `NoTranscriptFound` raise. -/
def findTranscript (tracks : List Track) : List String → Option Track
  | [] => none
  | l :: ls =>
    match tracks.find? fun t => t.lang == l && !t.isGenerated with
    | some t => some t
    | none =>
      match tracks.find? fun t => t.lang == l && t.isGenerated with
      | some t => some t
      | none => findTranscript tracks ls

/-- Model of `TranscriptList.find_generated_transcript`: only generated
tracks, languages tried in order; with an empty language list nothing is ever
found (the library raises `NoTranscriptFound` immediately). -/
def findGeneratedTranscript (tracks : List Track) : List String → Option Track
  | [] => none
  | l :: ls =>
    match tracks.find? fun t => t.lang == l && t.isGenerated with
    | some t => some t
    | none => findGeneratedTranscript tracks ls

/-- Model of `TranscriptList.find_manually_created_transcript`. -/
def findManuallyCreatedTranscript (tracks : List Track) : List String → Option Track
  | [] => none
  | l :: ls =>
    match tracks.find? fun t => t.lang == l && !t.isGenerated with
    | some t => some t
    | none => findManuallyCreatedTranscript tracks ls

namespace App

/-- `src/app.py` lines 50–55: the requested language list; a `None` or empty
preference contributes nothing, and `'en'` is appended unless present. -/
def buildLanguages (pref : Option String) : List String :=
  let languages : List String := []
  let languages := match pref with
    | some p => languages ++ [p]
    | none => languages
  if languages.contains "en" then languages else languages ++ ["en"]

/-- The caption-track selection of `src/app.py`'s `get_youtube_transcript`
(lines 49–96), with the network fetch abstracted away: `tracks` is the list
of available caption tracks and the result is the track whose segments get
concatenated, `none` meaning the function reports failure.  The branch
structure mirrors the source: `get_transcript(video_id, languages=languages)`
(its `NoTranscriptFound` raise handled by the inner `except`, which calls
`get_transcript(video_id)` — library default `languages=('en',)`), then the
outer `except NoTranscriptFound` fallback whose chain
`find_generated_transcript(['en']) or …` either returns its first result or
raises out of the first call into `except Exception` (failure): the later
`or` operands are unreachable because a falsy `Transcript` does not exist and
`find_*_transcript` raises instead of returning `None`. -/
def get_youtube_transcript (tracks : List Track) (pref : Option String) : Option Track :=
  let languages := buildLanguages pref
  let firstTry :=
    if languages ≠ [] then findTranscript tracks languages
    else findTranscript tracks ["en"]
  match firstTry with
  | some t => some t
  | none =>
    match findTranscript tracks ["en"] with
    | some t => some t
    | none =>
      match findGeneratedTranscript tracks ["en"] with
      | some t => some t
      | none => none

end App

/-- The error kinds of the specification (§7). -/
inductive ErrorKind
  | notFound
  | disabled
  | transientNetwork
  | malformed
deriving DecidableEq, Repr

/-- Outcome of one attempt of one retrieval strategy. -/
inductive StrategyOutcome
  | success (text : String)
  | failure (kind : ErrorKind) (detail : String)
deriving DecidableEq, Repr

/-- Modelled from the spec: the Strategy Executor's retry loop (§4.2) — it is
not implemented anywhere under `src/` (neither `get_youtube_transcript` nor
`try_alternative_transcript_method` retries).  `step n` is the outcome of the
`n`-th attempt; the result is the final outcome, the number of attempts made,
and the list of backoff delays slept (in time units).  At most 3 attempts in
total, sleeping the current delay and doubling it after every transient
failure that still has retries left; any non-transient outcome returns at
once. -/
def retryAux (step : Nat → StrategyOutcome) :
    Nat → Nat → Nat → List Nat → StrategyOutcome × Nat × List Nat
  | 0, done, _, sleeps => (.failure .transientNetwork "", done, sleeps)
  | remaining + 1, done, delay, sleeps =>
    match step done with
    | .failure .transientNetwork d =>
      if remaining = 0 then (.failure .transientNetwork d, done + 1, sleeps)
      else retryAux step remaining (done + 1) (2 * delay) (sleeps ++ [delay])
    | o => (o, done + 1, sleeps)

/-- Modelled from the spec: run a strategy under the §4.2 retry policy
(3 attempts total, backoff starting at 1 time unit). -/
def executeWithRetry (step : Nat → StrategyOutcome) : StrategyOutcome × Nat × List Nat :=
  retryAux step 3 0 1 []

/-- One entry of the orchestrator's attempt log (§3, `RetrievalResult`). -/
structure AttemptRecord where
  strategy_tag : String
  error_kind : ErrorKind
  detail : String
deriving DecidableEq, Repr

/-- The result surfaced to callers (§3). -/
inductive RetrievalResult
  | success (text : String)
  | failure (attempts : List AttemptRecord)
deriving DecidableEq, Repr

/-- Modelled from the spec: the Resolution Orchestrator's strategy loop
(§4.4) — `src/` has no attempt-log orchestrator (`main()` only chains the two
strategies and prints errors).  Each strategy is given with its tag and its
(post-retry) outcome; the loop returns `Success` at the first success, and on
failure appends `{strategy_tag, error_kind, detail}` to the log and
continues.  The second component lists the tags of the strategies actually
invoked, in order. -/
def runStrategies :
    List (String × StrategyOutcome) → List AttemptRecord → RetrievalResult × List String
  | [], log => (.failure log, [])
  | (tag, o) :: rest, log =>
    match o with
    | .success t => (.success t, [tag])
    | .failure k d =>
      let r := runStrategies rest (log ++ [⟨tag, k, d⟩])
      (r.1, tag :: r.2)

/-- Is `needle` a contiguous substring of the second list? -/
def hasSub (needle : List Char) : List Char → Bool
  | [] => needle.isEmpty
  | c :: rest => needle.isPrefixOf (c :: rest) || hasSub needle rest

/-- An SRT cue-index line: nonempty and all digits. -/
def isIndexLine (l : List Char) : Bool :=
  !l.isEmpty && l.all Char.isDigit

/-- An SRT time-range line: contains the `-->` arrow. -/
def isTimeRangeLine (l : List Char) : Bool :=
  hasSub "-->".data l

/-- Group a list of lines into blocks separated by blank lines. -/
def blocksByBlank : List (List Char) → List (List Char) → List (List (List Char))
  | [], acc => [acc.reverse]
  | l :: rest, acc =>
    if l.isEmpty then acc.reverse :: blocksByBlank rest []
    else blocksByBlank rest (l :: acc)

def joinWithSpace : List (List Char) → List Char
  | [] => []
  | [l] => l
  | l :: rest => l ++ ' ' :: joinWithSpace rest

/-- Modelled from the spec: SRT cue-text extraction (§4.3).  The cue list is
produced by the external `youtube_transcript_api` library, not by code under
`src/`; per the spec, each block's numeric index line and
`HH:MM:SS,mmm --> HH:MM:SS,mmm` line are stripped and blank-line runs
separate cues. -/
def srtCues (payload : List Char) : List (List Char) :=
  let lines := splitAllChar '\n' payload
  let blocks := blocksByBlank lines []
  (blocks.map fun b =>
    joinWithSpace (b.filter fun l =>
      !(isIndexLine l || isTimeRangeLine l || l.isEmpty))).filter
    fun c => c ≠ []

/-- `src/app.py` lines 69–71 (= `src/tony.py` lines 44–46): the segment-text
concatenation `transcript_text += segment['text'] + " "`. -/
def transcript_concat (segments : List (List Char)) : List Char :=
  segments.foldl (fun acc t => acc ++ t ++ [' ']) []

/-- The Payload Normalizer on an SRT payload: the spec-modelled cue
extraction followed by the source's concatenation loop. -/
def normalize_srt (payload : List Char) : List Char :=
  transcript_concat (srtCues payload)

/-- The claim's reading of §4.3: cue texts joined by single spaces
interleaved between cues (no trailing separator). -/
def interleaveJoin (cues : List (List Char)) : List Char :=
  joinWithSpace cues

/-- What the source's loop actually produces: every cue text followed by a
single space. -/
def trailingJoin (cues : List (List Char)) : List Char :=
  (cues.map fun t => t ++ [' ']).foldr (· ++ ·) []

/-- The concrete SRT payload of the claim. -/
def srtExample : String :=
  "1\n00:00:00,000 --> 00:00:02,000\nHello world\n\n2\n00:00:02,000 --> 00:00:04,000\nSecond line\n\n"

/-- `re.split(r'[\n\r]+', s)`: split on maximal runs of newline characters.
`inDelim` records whether the previous character belonged to the current
delimiter run. -/
def splitNlAux : List Char → Bool → List Char → List (List Char)
  | [], _, acc => [acc.reverse]
  | c :: rest, inDelim, acc =>
    if c = '\n' ∨ c = '\r' then
      if inDelim then splitNlAux rest true acc
      else acc.reverse :: splitNlAux rest true []
    else splitNlAux rest false (c :: acc)

def splitNl (s : List Char) : List (List Char) :=
  splitNlAux s false []

/-- The match attempt of the regex `https?://` at the head of `s` (greedy
optional `s`): the matched literal and the remainder. -/
def schemeAt (s : List Char) : Option (List Char × List Char) :=
  if "https://".data.isPrefixOf s then some ("https://".data, s.drop 8)
  else if "http://".data.isPrefixOf s then some ("http://".data, s.drop 7)
  else none

/-- `re.split(r'(https?://)', line)` with the capturing group: the result
alternates text pieces and matched delimiters, starting and ending with a
(possibly empty) text piece.  Fuelled; `reSplitScheme` supplies enough fuel. -/
def splitSchemeAux : Nat → List Char → List Char → List (List Char)
  | 0, s, acc => [acc.reverse ++ s]
  | fuel + 1, s, acc =>
    match s with
    | [] => [acc.reverse]
    | c :: rest =>
      match schemeAt (c :: rest) with
      | some dr => acc.reverse :: dr.1 :: splitSchemeAux fuel dr.2 []
      | none => splitSchemeAux fuel rest (c :: acc)

def reSplitScheme (s : List Char) : List (List Char) :=
  splitSchemeAux s.length s []

/-- `part.lower() in ['http://', 'https://']`. -/
def isSchemeLower (p : List Char) : Bool :=
  pyLower p == "http://".data || pyLower p == "https://".data

/-- The candidate-URL loop of `parse_video_urls` (`src/app.py` lines
178–181): `for i, part in enumerate(potential_urls): if part.lower() in
['http://', 'https://']: if i+1 < len(potential_urls):
urls.append(part + potential_urls[i+1])`. -/
def urlCandidates (parts : List (List Char)) : List (List Char) :=
  (List.range parts.length).filterMap fun i =>
    if isSchemeLower (parts.getD i []) ∧ i + 1 < parts.length
    then some (parts.getD i [] ++ parts.getD (i + 1) [])
    else none

/-- Equivalent pairwise description of the candidate loop: each part whose
lowercase form is a scheme prefix, glued to the part that follows it. -/
def pairUpLower : List (List Char) → List (List Char)
  | p :: q :: rest =>
    (if isSchemeLower p then [p ++ q] else []) ++ pairUpLower (q :: rest)
  | _ => []

/-- The claim's reading of the reassembly: only the literal (lowercase)
scheme-prefix delimiters are glued to the text following them. -/
def claimedPairUp : List (List Char) → List (List Char)
  | p :: q :: rest =>
    (if p = "http://".data ∨ p = "https://".data then [p ++ q] else []) ++
      claimedPairUp (q :: rest)
  | _ => []

/-- `re.findall(r'(https?://[^\s]+)', s)`: scan left to right; at each
position where the scheme literal matches and at least one non-whitespace
character follows, take the maximal non-whitespace run and resume after it. -/
def findallAux : Nat → List Char → List (List Char)
  | 0, _ => []
  | _, [] => []
  | fuel + 1, c :: rest =>
    match schemeAt (c :: rest) with
    | some dr =>
      let tok := dr.2.takeWhile fun x => !isPyWs x
      if tok = [] then findallAux fuel rest
      else (dr.1 ++ tok) :: findallAux fuel (dr.2.drop tok.length)
    | none => findallAux fuel rest

def findall_urls (s : List Char) : List (List Char) :=
  findallAux s.length s

/-- `src/app.py`'s `parse_video_urls` (lines 165–187). -/
def parse_video_urls_core (input : List Char) : List (List Char) :=
  let lines := splitNl (pyStrip input)
  let urls := (lines.map fun line => urlCandidates (reSplitScheme line)).foldr (· ++ ·) []
  let urls := if urls = [] then findall_urls input else urls
  (urls.map pyStrip).filter fun u => u ≠ []

def parse_video_urls (s : String) : List String :=
  (parse_video_urls_core s.data).map fun l => ⟨l⟩

/-- The claim's description of `parse_video_urls`, word for word: split on
newlines, reassemble each literal scheme-prefix occurrence with the text
following it, fall back to the direct token scan when that yields nothing. -/
def claimedParseVideoUrls (input : List Char) : List (List Char) :=
  let lines := splitNl (pyStrip input)
  let urls := (lines.map fun line => claimedPairUp (reSplitScheme line)).foldr (· ++ ·) []
  let urls := if urls = [] then findall_urls input else urls
  (urls.map pyStrip).filter fun u => u ≠ []

/-- The canonical video domains (the recognized hosts other than the
short-link host `youtu.be`). -/
def canonicalDomains : List (List Char) :=
  ["www.youtube.com".data, "youtube.com".data, "m.youtube.com".data]

/-- The path-segment tokens named by the claims about path-shaped URLs. -/
def pathSegTokens : List (List Char) :=
  ["embed".data, "v".data, "live".data, "shorts".data]

/-- No occurrence of the scheme literal starts anywhere in `t`. -/
def textNoScheme (t : List Char) : Prop := ∀ i, schemeAt (t.drop i) = none

/-- The shape of `re.split(r'(https?://)', line)`'s result: alternating text
pieces — which contain no scheme occurrence — and matched delimiters, which
are the scheme literals. -/
inductive AltSplit : List (List Char) → Prop
  | last (t : List Char) : textNoScheme t → AltSplit [t]
  | step (t d : List Char) (rest : List (List Char)) : textNoScheme t →
      (d = "http://".data ∨ d = "https://".data) → AltSplit rest →
      AltSplit (t :: d :: rest)

/-!  Helper lemmas about the string primitives and the URL parser. -/

theorem splitAtFirst_fst_not_mem (c : Char) (s : List Char) : c ∉ (splitAtFirst c s).1 := by
  induction s with
  | nil => simp [splitAtFirst]
  | cons x xs ih =>
    simp only [splitAtFirst]
    by_cases h : x = c
    · simp [h]
    · simp only [if_neg h]
      intro hmem
      rcases List.mem_cons.mp hmem with h1 | h1
      · exact h h1.symm
      · exact ih h1

theorem splitAtFirst_fst_of_none (c : Char) (s : List Char)
    (h : (splitAtFirst c s).2 = none) : (splitAtFirst c s).1 = s := by
  induction s with
  | nil => rfl
  | cons x xs ih =>
    simp only [splitAtFirst] at *
    by_cases hxc : x = c
    · simp [hxc] at h
    · simp only [if_neg hxc] at h ⊢
      rw [ih h]

theorem splitAtFirst_append (c : Char) (s : List Char) :
    ∀ a, (splitAtFirst c s).2 = some a → s = (splitAtFirst c s).1 ++ c :: a := by
  induction s with
  | nil => intro a h; simp [splitAtFirst] at h
  | cons x xs ih =>
    intro a h
    simp only [splitAtFirst] at *
    by_cases hxc : x = c
    · simp only [if_pos hxc] at h ⊢
      cases h
      simpa using hxc
    · simp only [if_neg hxc] at h ⊢
      rw [List.cons_append]
      exact congrArg (x :: ·) (ih a h)

theorem querySplit_fst_not_mem (s : List Char) : '?' ∉ (querySplit s).1 := by
  unfold querySplit
  rcases h : splitAtFirst '?' s with ⟨b, a⟩
  have hb : '?' ∉ b := by
    have := splitAtFirst_fst_not_mem '?' s
    rwa [h] at this
  cases a <;> simpa using hb

theorem mem_of_mem_splitparams (u : List Char) (x : Char)
    (hx : x ∈ (splitparams u).1) : x ∈ u := by
  unfold splitparams at hx
  rcases h1 : splitAtFirst '/' u.reverse with ⟨revPost, o1⟩
  cases o1 with
  | some revPre =>
    have hu : u.reverse = revPost ++ '/' :: revPre := by
      have := splitAtFirst_append '/' u.reverse revPre (by rw [h1])
      rwa [h1] at this
    rw [h1] at hx
    dsimp only at hx
    rcases h2 : splitAtFirst ';' revPost.reverse with ⟨b, o2⟩
    cases o2 with
    | some a =>
      rw [h2] at hx
      dsimp only at hx
      have hmem : x ∈ revPre.reverse ∨ x = '/' ∨ x ∈ b := by
        rcases List.mem_append.mp hx with h | h
        · exact Or.inl h
        · rcases List.mem_cons.mp h with h | h
          · exact Or.inr (Or.inl h)
          · exact Or.inr (Or.inr h)
      have hrev : x ∈ revPost ++ '/' :: revPre → x ∈ u := by
        intro hm
        have : x ∈ u.reverse := by rw [hu]; exact hm
        exact List.mem_reverse.mp this
      rcases hmem with h | h | h
      · exact hrev (List.mem_append.mpr (Or.inr (List.mem_cons.mpr
          (Or.inr (List.mem_reverse.mp h)))))
      · exact hrev (List.mem_append.mpr (Or.inr (List.mem_cons.mpr (Or.inl h))))
      · have hb : x ∈ revPost.reverse := by
          have heq := splitAtFirst_append ';' revPost.reverse a (by rw [h2])
          rw [h2] at heq
          rw [heq]
          exact List.mem_append.mpr (Or.inl h)
        exact hrev (List.mem_append.mpr (Or.inl (List.mem_reverse.mp hb)))
    | none =>
      rw [h2] at hx
      simpa using hx
  | none =>
    rw [h1] at hx
    dsimp only at hx
    rcases h2 : splitAtFirst ';' u with ⟨b, o2⟩
    cases o2 with
    | some a =>
      rw [h2] at hx
      dsimp only at hx
      have heq := splitAtFirst_append ';' u a (by rw [h2])
      rw [h2] at heq
      rw [heq]
      exact List.mem_append.mpr (Or.inl hx)
    | none =>
      rw [h2] at hx
      simpa using hx

theorem urlsplitE_no_qmark (u : List Char) (p : UrlParts)
    (h : urlsplitE u = .ok p) : '?' ∉ p.path := by
  simp only [urlsplitE] at h
  split at h
  · exact absurd h (by simp)
  · cases h
    exact querySplit_fst_not_mem _

theorem urlparseE_no_qmark (u : List Char) (p : UrlParts)
    (h : urlparseE u = .ok p) : '?' ∉ p.path := by
  unfold urlparseE at h
  rcases hs : urlsplitE u with e | sp
  · rw [hs] at h; exact absurd h (by simp)
  · rw [hs] at h
    dsimp only at h
    have hsp := urlsplitE_no_qmark u sp hs
    split at h
    · cases h
      intro hmem
      exact hsp (mem_of_mem_splitparams _ _ hmem)
    · cases h
      exact hsp

theorem splitAllCharAux_of_not_mem (c : Char) (s : List Char) :
    ∀ acc, c ∉ s → splitAllCharAux c s acc = [acc.reverse ++ s] := by
  induction s with
  | nil => intro acc _; simp [splitAllCharAux]
  | cons x xs ih =>
    intro acc h
    have hxc : ¬x = c := fun he => h (by rw [he]; exact List.mem_cons_self _ _)
    have hxs : c ∉ xs := fun hm => h (List.mem_cons.mpr (Or.inr hm))
    simp only [splitAllCharAux, if_neg hxc]
    rw [ih (x :: acc) hxs]
    simp

theorem splitAllChar_of_not_mem (c : Char) (s : List Char) (h : c ∉ s) :
    splitAllChar c s = [s] := by
  simpa using splitAllCharAux_of_not_mem c s [] h

theorem getVParam_nil : getVParam [] = none := rfl

theorem isPrefixOf_append_right (n u v : List Char) (h : n.isPrefixOf u = true) :
    n.isPrefixOf (u ++ v) = true := by
  rw [List.isPrefixOf_iff_prefix] at h ⊢
  exact h.trans (List.prefix_append u v)

theorem schemeAt_none_append (u v : List Char) (h : schemeAt (u ++ v) = none) :
    schemeAt u = none := by
  unfold schemeAt at h ⊢
  by_cases h1 : "https://".data.isPrefixOf u
  · rw [if_pos (isPrefixOf_append_right _ u v h1)] at h
    exact absurd h (by simp)
  · by_cases h2 : "http://".data.isPrefixOf u
    · by_cases h1v : "https://".data.isPrefixOf (u ++ v)
      · rw [if_pos h1v] at h
        exact absurd h (by simp)
      · rw [if_neg h1v, if_pos (isPrefixOf_append_right _ u v h2)] at h
        exact absurd h (by simp)
    · rw [if_neg h1, if_neg h2]

theorem schemeAt_nil : schemeAt [] = none := rfl

theorem textNoScheme_of_cont (t s : List Char)
    (h : ∀ i, i < t.length → schemeAt (t.drop i ++ s) = none) : textNoScheme t := by
  intro i
  by_cases hi : i < t.length
  · exact schemeAt_none_append _ _ (h i hi)
  · rw [List.drop_eq_nil_of_le (Nat.le_of_not_lt hi)]
    exact schemeAt_nil

theorem schemeAt_spec (s : List Char) (dr : List Char × List Char)
    (h : schemeAt s = some dr) :
    dr.1 ++ dr.2 = s ∧ (dr.1 = "http://".data ∨ dr.1 = "https://".data) ∧
      dr.2.length + 7 ≤ s.length := by
  unfold schemeAt at h
  by_cases h1 : "https://".data.isPrefixOf s
  · rw [if_pos h1] at h
    cases h
    obtain ⟨t, ht⟩ := List.isPrefixOf_iff_prefix.mp h1
    have hdrop : s.drop 8 = t := by
      rw [← ht]
      exact List.drop_left "https://".data t
    have hlen : s.length = 8 + t.length := by
      rw [← ht, List.length_append]
      rw [show ("https://".data : List Char).length = 8 from rfl]
    refine ⟨?_, Or.inr rfl, ?_⟩
    · show "https://".data ++ s.drop 8 = s
      rw [hdrop, ← ht]
    · show (s.drop 8).length + 7 ≤ s.length
      rw [hdrop]; omega
  · rw [if_neg h1] at h
    by_cases h2 : "http://".data.isPrefixOf s
    · rw [if_pos h2] at h
      cases h
      obtain ⟨t, ht⟩ := List.isPrefixOf_iff_prefix.mp h2
      have hdrop : s.drop 7 = t := by
        rw [← ht]
        exact List.drop_left "http://".data t
      have hlen : s.length = 7 + t.length := by
        rw [← ht, List.length_append]
        rw [show ("http://".data : List Char).length = 7 from rfl]
      refine ⟨?_, Or.inl rfl, ?_⟩
      · show "http://".data ++ s.drop 7 = s
        rw [hdrop, ← ht]
      · show (s.drop 7).length + 7 ≤ s.length
        rw [hdrop]; omega
    · rw [if_neg h2] at h
      exact absurd h (by simp)

theorem splitSchemeAux_spec : ∀ (fuel : Nat) (s acc : List Char), s.length ≤ fuel →
    (∀ i, i < acc.length → schemeAt (acc.reverse.drop i ++ s) = none) →
    AltSplit (splitSchemeAux fuel s acc) ∧
      (splitSchemeAux fuel s acc).foldr (· ++ ·) [] = acc.reverse ++ s := by
  intro fuel
  induction fuel with
  | zero =>
    intro s acc hs hinv
    have hnil : s = [] := List.eq_nil_of_length_eq_zero (Nat.le_zero.mp hs)
    subst hnil
    have ht : textNoScheme acc.reverse := by
      apply textNoScheme_of_cont acc.reverse []
      intro i hi
      exact hinv i (by simpa using hi)
    constructor
    · exact AltSplit.last _ (by simpa using ht)
    · simp [splitSchemeAux]
  | succ fuel ih =>
    intro s acc hs hinv
    cases s with
    | nil =>
      have ht : textNoScheme acc.reverse := by
        apply textNoScheme_of_cont acc.reverse []
        intro i hi
        exact hinv i (by simpa using hi)
      constructor
      · exact AltSplit.last _ ht
      · simp [splitSchemeAux]
    | cons c rest =>
      simp only [splitSchemeAux]
      cases hsa : schemeAt (c :: rest) with
      | none =>
        have hlen : rest.length ≤ fuel := by
          simp at hs; omega
        have hinv2 : ∀ i, i < (c :: acc).length →
            schemeAt ((c :: acc).reverse.drop i ++ rest) = none := by
          intro i hi
          rw [List.reverse_cons]
          by_cases hia : i < acc.length
          · rw [List.drop_append_of_le_length (by simpa using Nat.le_of_lt hia),
              List.append_assoc]
            simpa using hinv i hia
          · have hieq : i = acc.length := by simp at hi; omega
            rw [hieq, ← List.length_reverse acc, List.drop_append_of_le_length le_rfl,
              List.drop_length]
            simpa using hsa
        obtain ⟨ha, hb⟩ := ih rest (c :: acc) hlen hinv2
        refine ⟨ha, ?_⟩
        rw [hb, List.reverse_cons, List.append_assoc]
        rfl
      | some dr =>
        obtain ⟨heq, hlit, hlen7⟩ := schemeAt_spec _ _ hsa
        have hlen : dr.2.length ≤ fuel := by
          simp at hs hlen7; omega
        have ht : textNoScheme acc.reverse := by
          apply textNoScheme_of_cont acc.reverse (c :: rest)
          intro i hi
          exact hinv i (by simpa using hi)
        obtain ⟨ha, hb⟩ := ih dr.2 [] hlen (by intro i hi; simp at hi)
        constructor
        · exact AltSplit.step _ _ _ ht hlit ha
        · simp only [List.foldr_cons]
          rw [hb]
          simp only [List.reverse_nil, List.nil_append]
          rw [← List.append_assoc, List.append_assoc acc.reverse, heq]

theorem reSplitScheme_spec (line : List Char) :
    AltSplit (reSplitScheme line) ∧
      (reSplitScheme line).foldr (· ++ ·) [] = line := by
  have h := splitSchemeAux_spec line.length line [] le_rfl (by intro i hi; simp at hi)
  simpa [reSplitScheme] using h

theorem filterMap_range_succ_shift (f : Nat → Option (List Char)) (n : Nat) :
    (List.range (n + 1)).filterMap f =
      (match f 0 with | some b => [b] | none => []) ++
        (List.range n).filterMap (fun i => f (i + 1)) := by
  rw [List.range_succ_eq_map, List.filterMap_cons, List.filterMap_map]
  cases h0 : f 0 <;> simp [h0, Function.comp_def, Nat.succ_eq_add_one]

theorem urlCandidates_eq_pairUpLower : ∀ parts, urlCandidates parts = pairUpLower parts := by
  intro parts
  induction parts with
  | nil => rfl
  | cons p tail ih =>
    cases tail with
    | nil =>
      unfold urlCandidates
      rw [show ([p] : List (List Char)).length = 0 + 1 from rfl, filterMap_range_succ_shift]
      rw [if_neg fun hc => absurd hc.2 (by simp)]
      rfl
    | cons q rest =>
      unfold urlCandidates
      rw [show (p :: q :: rest).length = (q :: rest).length + 1 from rfl,
        filterMap_range_succ_shift]
      have hcongr : (List.range (q :: rest).length).filterMap
            (fun i => if isSchemeLower ((p :: q :: rest).getD (i + 1) []) = true ∧
                i + 1 + 1 < (q :: rest).length + 1
              then some ((p :: q :: rest).getD (i + 1) [] ++ (p :: q :: rest).getD (i + 1 + 1) [])
              else none) = urlCandidates (q :: rest) := by
        unfold urlCandidates
        apply List.filterMap_congr
        intro i _
        simp only [List.getD_cons_succ]
        exact if_congr (and_congr Iff.rfl (by omega)) rfl rfl
      rw [hcongr, ih]
      show (match (if isSchemeLower ((p :: q :: rest).getD 0 []) = true ∧
          0 + 1 < (q :: rest).length + 1
        then some ((p :: q :: rest).getD 0 [] ++ (p :: q :: rest).getD (0 + 1) [])
        else none) with | some b => [b] | none => []) ++ pairUpLower (q :: rest) =
        pairUpLower (p :: q :: rest)
      cases hp : isSchemeLower p with
      | true =>
        rw [if_pos ⟨by simpa using hp, by simp only [List.length_cons]; omega⟩]
        show ([p ++ q] : List (List Char)) ++ pairUpLower (q :: rest) = pairUpLower (p :: q :: rest)
        simp [pairUpLower, hp]
      | false =>
        rw [if_neg fun hc => by
          rw [show (p :: q :: rest).getD 0 [] = p from rfl, hp] at hc
          exact absurd hc.1 (by simp)]
        show ([] : List (List Char)) ++ pairUpLower (q :: rest) = pairUpLower (p :: q :: rest)
        simp [pairUpLower, hp]

theorem transcript_concat_aux (segments : List (List Char)) : ∀ a,
    segments.foldl (fun acc t => acc ++ t ++ [' ']) a = a ++ trailingJoin segments := by
  induction segments with
  | nil => intro a; simp [trailingJoin]
  | cons t rest ih =>
    intro a
    simp only [List.foldl_cons]
    rw [ih (a ++ t ++ [' '])]
    simp [trailingJoin, List.append_assoc]

theorem mem_canonical_netloc (a : List Char) (h : a ∈ canonicalDomains) :
    a ∈ ytDomains ∧ a ≠ "youtu.be".data := by
  simp only [canonicalDomains, List.mem_cons, List.not_mem_nil, or_false] at h
  rcases h with h | h | h <;> subst h <;> exact ⟨by decide, by decide⟩

theorem app_selectFromParts_canonical (p : UrlParts) (h : p.netloc ∈ canonicalDomains) :
    App.selectFromParts p = getVParam p.query := by
  obtain ⟨h1, h2⟩ := mem_canonical_netloc _ h
  unfold App.selectFromParts
  rw [if_neg (not_not_intro h1), if_neg h2]
  by_cases hq : p.query = []
  · rw [if_neg fun hne => hne hq, hq, getVParam_nil]
  · rw [if_pos hq]
    rcases hgv : getVParam p.query with _ | v <;> simp [hgv]

theorem tony_selectFromParts_canonical (p : UrlParts) (h : p.netloc ∈ canonicalDomains) :
    Tony.selectFromParts p = getVParam p.query := by
  obtain ⟨h1, h2⟩ := mem_canonical_netloc _ h
  unfold Tony.selectFromParts
  rw [if_neg (not_not_intro h1), if_neg h2]
  by_cases hq : p.query = []
  · rw [if_neg fun hne => hne hq, hq, getVParam_nil]
  · rw [if_pos hq]
    rcases hgv : getVParam p.query with _ | v <;> simp [hgv]

theorem app_selectFromParts_shortlink (p : UrlParts) (h : p.netloc = "youtu.be".data)
    (hq : '?' ∉ p.path) : App.selectFromParts p = some (p.path.drop 1) := by
  unfold App.selectFromParts
  rw [if_neg (not_not_intro (by rw [h]; decide)), if_pos h]
  have hd : '?' ∉ p.path.drop 1 := fun hm => hq (List.mem_of_mem_drop hm)
  rw [splitAllChar_of_not_mem _ _ hd]
  rfl

theorem tony_selectFromParts_shortlink (p : UrlParts) (h : p.netloc = "youtu.be".data) :
    Tony.selectFromParts p = some (p.path.drop 1) := by
  unfold Tony.selectFromParts
  rw [if_neg (not_not_intro (by rw [h]; decide)), if_pos h]

theorem app_extract_eq_of_parse (url : List Char) (p : UrlParts)
    (h : urlparseE (App.cleanUrl url) = .ok p) :
    App.extract_video_id_core url = App.selectFromParts p := by
  unfold App.extract_video_id_core App.extract_video_idE
  rw [h]

theorem tony_extract_eq_of_parse (url : List Char) (p : UrlParts)
    (h : urlparseE url = .ok p) :
    Tony.extract_video_id_core url = Tony.selectFromParts p := by
  unfold Tony.extract_video_id_core Tony.extract_video_idE
  rw [h]

/-!  Claim theorems. -/

/-- C1, counterexample: the claim's SRT payload does not normalize to
exactly `"Hello world Second line"` — the source's concatenation loop
(`transcript_text += segment['text'] + " "`) appends a space after every
cue, so the result carries a trailing space. -/
theorem normalize_srt_counterexample :
    normalize_srt srtExample.data = "Hello world Second line ".data ∧
      normalize_srt srtExample.data ≠ "Hello world Second line".data :=
  ⟨by decide, by decide⟩

/-- C1, amended: `normalize` returns the concatenation of the cue texts each
followed by a single space (document order, no other cleaning and no
trimming), so the claim's SRT payload normalizes to
`"Hello world Second line "` with a trailing space. -/
theorem normalize_srt_amended :
    (∀ segments, transcript_concat segments = trailingJoin segments) ∧
      srtCues srtExample.data = ["Hello world".data, "Second line".data] ∧
      normalize_srt srtExample.data = "Hello world Second line ".data :=
  ⟨fun segments => transcript_concat_aux segments [], by decide, by decide⟩

/-- C2: the embedded track selection of `get_youtube_transcript`, evaluated
at the failing input — one manually created `"de"` track with preferred
language `"fr"` — returns failure even though a track exists, contradicting
the claimed fallback to any generated/manual/first track; the claim's own
concrete scenario (one manually created `"en"` track) succeeds only because
`'en'` is hard-coded into the requested language list. -/
theorem get_youtube_transcript_selection_eval :
    App.get_youtube_transcript [⟨"de", false⟩] (some "fr") = none ∧
      App.get_youtube_transcript [⟨"en", false⟩] (some "fr") = some ⟨"en", false⟩ :=
  ⟨by decide, by decide⟩

/-- C3: the (spec-modelled) retry executor makes exactly 3 attempts with
backoff delays 1 and 2 (starting at 1 time unit and doubling) when every
attempt is `TransientNetwork`, surfacing `TransientNetwork` as the final
error; any non-transient error and any success end the loop after exactly
one attempt with no backoff — `NotFound`, `Disabled` and `Malformed` are
never retried. -/
theorem executeWithRetry_policy :
    (∀ d, executeWithRetry (fun _ => .failure .transientNetwork d) =
      (.failure .transientNetwork d, 3, [1, 2])) ∧
      (∀ step k d, k ≠ ErrorKind.transientNetwork → step 0 = .failure k d →
        executeWithRetry step = (.failure k d, 1, [])) ∧
      (∀ step t, step 0 = .success t → executeWithRetry step = (.success t, 1, [])) := by
  refine ⟨fun d => rfl, ?_, ?_⟩
  · intro step k d hk h
    show retryAux step 3 0 1 [] = (.failure k d, 1, [])
    rw [show (3 : Nat) = 2 + 1 from rfl]
    simp only [retryAux]
    rw [h]
    cases k with
    | transientNetwork => exact absurd rfl hk
    | notFound => rfl
    | disabled => rfl
    | malformed => rfl
  · intro step t h
    show retryAux step 3 0 1 [] = (.success t, 1, [])
    rw [show (3 : Nat) = 2 + 1 from rfl]
    simp only [retryAux]
    rw [h]

/-- Witness for the retry-policy theorem: the hypotheses hold at the
concrete strategy that always reports `NotFound`, which is attempted exactly
once. -/
theorem executeWithRetry_policy_witness :
    ErrorKind.notFound ≠ ErrorKind.transientNetwork ∧
      executeWithRetry (fun _ => .failure .notFound "missing") =
        (.failure .notFound "missing", 1, []) :=
  ⟨by decide, executeWithRetry_policy.2.1 (fun _ => .failure .notFound "missing")
    .notFound "missing" (by decide) rfl⟩

/-- C4: the (spec-modelled) orchestrator runs strategies in list order and
short-circuits: for a strategy list `[A, B]`, if `A` succeeds the result is
`A`'s success and the invoked list is exactly `[A]` — `B` is never invoked;
if `A` fails, the record `{strategy_tag, error_kind, detail}` is appended to
the attempt log and `B` is then invoked. -/
theorem runStrategies_short_circuit :
    (∀ tagA tagB t oB log,
      runStrategies [(tagA, .success t), (tagB, oB)] log = (.success t, [tagA])) ∧
      (∀ tagA tagB k d oB log,
        runStrategies [(tagA, .failure k d), (tagB, oB)] log =
          ((runStrategies [(tagB, oB)] (log ++ [⟨tagA, k, d⟩])).1,
            tagA :: (runStrategies [(tagB, oB)] (log ++ [⟨tagA, k, d⟩])).2)) :=
  ⟨fun _ _ _ _ _ => rfl, fun _ _ _ _ _ _ => rfl⟩

/-- C5, counterexample: for the watch URL with `v` after another query
parameter, `src/app.py`'s resolver returns `None` instead of the `v`
parameter's value `"abc123"` (it truncates at the first `&` before
parsing); `src/tony.py`'s resolver returns `"abc123"` for the same URL. -/
theorem extract_video_id_watch_counterexample :
    App.extract_video_id "https://www.youtube.com/watch?list=xyz&v=abc123" = none ∧
      Tony.extract_video_id "https://www.youtube.com/watch?list=xyz&v=abc123" = some "abc123" :=
  ⟨by decide, by decide⟩

/-- C5, amended: for every URL whose parsed host is a canonical video
domain, `src/app.py`'s resolver returns the first value of the `v` query
parameter of the URL truncated at its first `&` (and fails when that
parameter is absent there), while `src/tony.py`'s resolver returns the `v`
parameter of the full URL; the claim's concrete example resolves to
`"abc123"` in both. -/
theorem extract_video_id_watch_amended :
    (∀ url p, urlparseE (App.cleanUrl url) = .ok p → p.netloc ∈ canonicalDomains →
      App.extract_video_id_core url = getVParam p.query) ∧
      (∀ url p, urlparseE url = .ok p → p.netloc ∈ canonicalDomains →
        Tony.extract_video_id_core url = getVParam p.query) ∧
      App.extract_video_id "https://www.youtube.com/watch?v=abc123&list=xyz" = some "abc123" ∧
      Tony.extract_video_id "https://www.youtube.com/watch?v=abc123&list=xyz" = some "abc123" := by
  refine ⟨?_, ?_, by decide, by decide⟩
  · intro url p h hm
    rw [app_extract_eq_of_parse url p h]
    exact app_selectFromParts_canonical p hm
  · intro url p h hm
    rw [tony_extract_eq_of_parse url p h]
    exact tony_selectFromParts_canonical p hm

/-- Witness for the amended watch-URL theorem at the claim's concrete URL. -/
theorem extract_video_id_watch_amended_witness :
    urlparseE (App.cleanUrl "https://www.youtube.com/watch?v=abc123&list=xyz".data) =
        .ok ⟨"https".data, "www.youtube.com".data, "/watch".data, [], "v=abc123".data, []⟩ ∧
      "www.youtube.com".data ∈ canonicalDomains ∧
      App.extract_video_id_core "https://www.youtube.com/watch?v=abc123&list=xyz".data =
        getVParam "v=abc123".data :=
  ⟨by decide, by decide,
    extract_video_id_watch_amended.1 _
      ⟨"https".data, "www.youtube.com".data, "/watch".data, [], "v=abc123".data, []⟩
      (by decide) (by decide)⟩

/-- C6, counterexample: further `/` segments are not discarded by either
resolver — `"https://youtu.be/abc123/extra"` resolves to `"abc123/extra"`
rather than to the first non-empty segment `"abc123"`, and a doubled slash
is kept, `"https://youtu.be//abc123"` resolving to `"/abc123"`. -/
theorem extract_video_id_shortlink_counterexample :
    App.extract_video_id "https://youtu.be/abc123/extra" = some "abc123/extra" ∧
      Tony.extract_video_id "https://youtu.be/abc123/extra" = some "abc123/extra" ∧
      ("abc123/extra" : String) ≠ "abc123" ∧
      App.extract_video_id "https://youtu.be//abc123" = some "/abc123" :=
  ⟨by decide, by decide, by decide, by decide⟩

/-- C6, amended: for every URL whose parsed host is the short-link domain,
both resolvers return the parsed path with its leading character removed —
the query (anything from `?` on) is already excluded by URL parsing, so
`src/app.py`'s extra `split('?')[0]` is a no-op, but further `/` segments
and empty segments are preserved; `"https://youtu.be/abc123?t=5"` resolves
to `"abc123"`. -/
theorem extract_video_id_shortlink_amended :
    (∀ url p, urlparseE (App.cleanUrl url) = .ok p → p.netloc = "youtu.be".data →
      App.extract_video_id_core url = some (p.path.drop 1)) ∧
      (∀ url p, urlparseE url = .ok p → p.netloc = "youtu.be".data →
        Tony.extract_video_id_core url = some (p.path.drop 1)) ∧
      App.extract_video_id "https://youtu.be/abc123?t=5" = some "abc123" ∧
      Tony.extract_video_id "https://youtu.be/abc123?t=5" = some "abc123" := by
  refine ⟨?_, ?_, by decide, by decide⟩
  · intro url p h hn
    rw [app_extract_eq_of_parse url p h]
    exact app_selectFromParts_shortlink p hn (urlparseE_no_qmark _ p h)
  · intro url p h hn
    rw [tony_extract_eq_of_parse url p h]
    exact tony_selectFromParts_shortlink p hn

/-- Witness for the amended short-link theorem at the claim's concrete URL. -/
theorem extract_video_id_shortlink_amended_witness :
    urlparseE (App.cleanUrl "https://youtu.be/abc123?t=5".data) =
        .ok ⟨"https".data, "youtu.be".data, "/abc123".data, [], "t=5".data, []⟩ ∧
      App.extract_video_id_core "https://youtu.be/abc123?t=5".data =
        some ("/abc123".data.drop 1) :=
  ⟨by decide,
    extract_video_id_shortlink_amended.1 _
      ⟨"https".data, "youtu.be".data, "/abc123".data, [], "t=5".data, []⟩
      (by decide) (by decide)⟩

/-- C7, counterexample: neither resolver implements the documented
path-segment rules — `"https://www.youtube.com/live/abc123"` fails
(`None`) instead of resolving to `"abc123"`. -/
theorem extract_video_id_pathshape_counterexample :
    App.extract_video_id "https://www.youtube.com/live/abc123" = none ∧
      Tony.extract_video_id "https://www.youtube.com/live/abc123" = none ∧
      (none : Option String) ≠ some "abc123" :=
  ⟨by decide, by decide, by decide⟩

/-- C7, amended: for every canonical-domain URL whose path contains an
`embed`, `v`, `live` or `shorts` segment, both resolvers consult only the
`v` query parameter (of the `&`-truncated URL for `src/app.py`, of the full
URL for `src/tony.py`), returning its value when present and failing with
`None` otherwise; in particular both
`"https://www.youtube.com/live/abc123"` and
`"https://www.youtube.com/live/"` fail in both variants. -/
theorem extract_video_id_pathshape_amended :
    (∀ url p, urlparseE (App.cleanUrl url) = .ok p → p.netloc ∈ canonicalDomains →
      (∃ seg, seg ∈ pathSegTokens ∧ seg ∈ splitAllChar '/' p.path) →
      App.extract_video_id_core url = getVParam p.query) ∧
      (∀ url p, urlparseE url = .ok p → p.netloc ∈ canonicalDomains →
        (∃ seg, seg ∈ pathSegTokens ∧ seg ∈ splitAllChar '/' p.path) →
        Tony.extract_video_id_core url = getVParam p.query) ∧
      App.extract_video_id "https://www.youtube.com/live/abc123" = none ∧
      App.extract_video_id "https://www.youtube.com/live/" = none ∧
      Tony.extract_video_id "https://www.youtube.com/live/abc123" = none ∧
      Tony.extract_video_id "https://www.youtube.com/live/" = none := by
  refine ⟨?_, ?_, by decide, by decide, by decide, by decide⟩
  · intro url p h hm _
    rw [app_extract_eq_of_parse url p h]
    exact app_selectFromParts_canonical p hm
  · intro url p h hm _
    rw [tony_extract_eq_of_parse url p h]
    exact tony_selectFromParts_canonical p hm

/-- Witness for the amended path-shape theorem at the live URL: the path
`/live/abc123` does contain the `live` segment, and both resolvers return
the (absent) `v` parameter of the empty query. -/
theorem extract_video_id_pathshape_amended_witness :
    (∃ seg, seg ∈ pathSegTokens ∧ seg ∈ splitAllChar '/' "/live/abc123".data) ∧
      App.extract_video_id_core "https://www.youtube.com/live/abc123".data =
        getVParam [] ∧
      Tony.extract_video_id_core "https://www.youtube.com/live/abc123".data =
        getVParam [] :=
  ⟨⟨"live".data, by decide, by decide⟩,
    extract_video_id_pathshape_amended.1 _
      ⟨"https".data, "www.youtube.com".data, "/live/abc123".data, [], [], []⟩
      (by decide) (by decide) ⟨"live".data, by decide, by decide⟩,
    extract_video_id_pathshape_amended.2.1 _
      ⟨"https".data, "www.youtube.com".data, "/live/abc123".data, [], [], []⟩
      (by decide) (by decide) ⟨"live".data, by decide, by decide⟩⟩

/-- C8: whenever the parsed host is not one of the recognized domains
(including every URL the parser rejects), both resolvers fail with `None`,
regardless of path or query shape. -/
theorem extract_video_id_unrecognized_host :
    (∀ url, (∀ p, urlparseE (App.cleanUrl url) = .ok p → p.netloc ∉ ytDomains) →
      App.extract_video_id_core url = none) ∧
      (∀ url, (∀ p, urlparseE url = .ok p → p.netloc ∉ ytDomains) →
        Tony.extract_video_id_core url = none) := by
  constructor
  · intro url h
    unfold App.extract_video_id_core App.extract_video_idE
    rcases he : urlparseE (App.cleanUrl url) with e | p
    · rfl
    · show App.selectFromParts p = none
      unfold App.selectFromParts
      rw [if_pos (h p he)]
  · intro url h
    unfold Tony.extract_video_id_core Tony.extract_video_idE
    rcases he : urlparseE url with e | p
    · rfl
    · show Tony.selectFromParts p = none
      unfold Tony.selectFromParts
      rw [if_pos (h p he)]

/-- Witness for the unrecognized-host theorem at a concrete foreign host. -/
theorem extract_video_id_unrecognized_host_witness :
    App.extract_video_id_core "https://vimeo.com/watch?v=abc".data = none := by
  apply extract_video_id_unrecognized_host.1
  intro p hp
  rw [show urlparseE (App.cleanUrl "https://vimeo.com/watch?v=abc".data) =
      .ok ⟨"https".data, "vimeo.com".data, "/watch".data, [], "v=abc".data, []⟩
    from by decide] at hp
  injection hp with h2
  rw [← h2]
  decide

/-- C9, counterexample: the claim's description of the reassembly step is
not exact — on `"HTTP://http://x"` the code also glues the text piece
`"HTTP://"` (whose lowercase form is a scheme prefix) to the following
delimiter, producing the extra candidate `"HTTP://http://"`, while the
claim's word-for-word procedure yields only `["http://x"]`. -/
theorem parse_video_urls_counterexample :
    parse_video_urls "HTTP://http://x" = ["HTTP://http://", "http://x"] ∧
      claimedParseVideoUrls "HTTP://http://x".data = ["http://x".data] ∧
      parse_video_urls_core "HTTP://http://x".data ≠
        claimedParseVideoUrls "HTTP://http://x".data :=
  ⟨by decide, by decide, by decide⟩

/-- C9, amended: `parse_video_urls` first splits on newline runs; within
each line `re.split` cuts exactly at the literal `http://`/`https://`
occurrences (the pieces concatenate back to the line, delimiters are the
scheme literals, and text pieces contain no scheme occurrence), and each
part whose lowercase form is a scheme prefix — the delimiters, plus any
text piece that is an upper/mixed-case scheme prefix — is glued to the part
following it; if this yields zero candidates the whole text is scanned for
scheme-prefixed non-whitespace tokens; the function is total and an empty
result is a valid outcome. -/
theorem parse_video_urls_amended :
    (∀ line, AltSplit (reSplitScheme line) ∧
      (reSplitScheme line).foldr (· ++ ·) [] = line) ∧
      (∀ parts, urlCandidates parts = pairUpLower parts) ∧
      (∀ input, parse_video_urls_core input =
        (((if ((splitNl (pyStrip input)).map fun line =>
                pairUpLower (reSplitScheme line)).foldr (· ++ ·) [] = []
            then findall_urls input
            else ((splitNl (pyStrip input)).map fun line =>
                pairUpLower (reSplitScheme line)).foldr (· ++ ·) []).map pyStrip).filter
          fun u => u ≠ [])) := by
  refine ⟨reSplitScheme_spec, urlCandidates_eq_pairUpLower, ?_⟩
  intro input
  unfold parse_video_urls_core
  rw [show (fun line => urlCandidates (reSplitScheme line)) =
      (fun line => pairUpLower (reSplitScheme line))
    from funext fun line => urlCandidates_eq_pairUpLower _]

/-- C10: both `extract_video_id` variants are total at the public
interface — the result is exactly the `try` body's value with every raise
mapped to `None` by the `except Exception` handler, and the handler is
reachable: the mismatched-bracket URL `"https://[bad/x"` makes `urlparse`
raise `ValueError`, and both functions return `None` for it. -/
theorem extract_video_id_total :
    (∀ url, App.extract_video_id_core url =
      match App.extract_video_idE url with
      | .ok r => r
      | .error _ => none) ∧
      (∀ url, Tony.extract_video_id_core url =
        match Tony.extract_video_idE url with
        | .ok r => r
        | .error _ => none) ∧
      App.extract_video_idE "https://[bad/x".data = .error "Invalid IPv6 URL".data ∧
      App.extract_video_id "https://[bad/x" = none ∧
      Tony.extract_video_idE "https://[bad/x".data = .error "Invalid IPv6 URL".data ∧
      Tony.extract_video_id "https://[bad/x" = none :=
  ⟨fun _ => rfl, fun _ => rfl, by decide, by decide, by decide, by decide⟩
